import Mathlib

/-!
Verification of the GBFF → GFF3 converter (`src/biohelpers/gbff_to_gff.py`).

The Python source is shallowly embedded over `List Char` (one `Char` per
Python code point; the ASCII fragment of Python's character classes is
modelled, which covers every character class the converter manipulates).
Python strings are modelled as `List Char`; a Lean string literal `s` is
turned into its character list with `s.data`.
-/

namespace GbffToGff

/-- ASCII model of Python whitespace (`str.strip()` default set and `\s`). -/
def isSpaceChar (c : Char) : Bool :=
  c = ' ' || c = '\t' || c = '\n' || c = '\r' || c = '\x0b' || c = '\x0c'

/-- ASCII decimal digit (`\d`, `str.isdigit`, `int()` digits). -/
def isDigitChar (c : Char) : Bool :=
  48 ≤ c.toNat && c.toNat ≤ 57

/-- ASCII model of Python `\w` (used by the feature-header regex). -/
def isWordChar (c : Char) : Bool :=
  c.isAlpha || isDigitChar c || c = '_'

/-- Python `str.strip()` (ASCII whitespace model): drop whitespace
from both ends. -/
def pyStrip (s : List Char) : List Char :=
  ((s.dropWhile isSpaceChar).reverse.dropWhile isSpaceChar).reverse

/-- Python `str.strip('"')`: drop all leading and all trailing `"`
characters (mirrors `current_value.strip('"')` in `extract_attributes`). -/
def stripQuotes (s : List Char) : List Char :=
  ((s.dropWhile (fun c => c = '"')).reverse.dropWhile (fun c => c = '"')).reverse

/-- `re.sub(r"[<>]", "", s)`: remove every `<` and `>`. -/
def stripAngles (s : List Char) : List Char :=
  s.filter (fun c => !(c = '<' || c = '>'))

/-- Numeric value of a decimal digit string. -/
def digitsVal (s : List Char) : Nat :=
  s.foldl (fun n c => 10 * n + (c.toNat - 48)) 0

/-- Helper for `pyInt`: parse the rest of a Python integer literal body
(digits with optional single underscores between digits), accumulating. -/
def digitPartAux (acc : Nat) : List Char → Option Nat
  | [] => some acc
  | [c] => if isDigitChar c then some (10 * acc + (c.toNat - 48)) else none
  | c :: c2 :: rest =>
    if isDigitChar c then digitPartAux (10 * acc + (c.toNat - 48)) (c2 :: rest)
    else if c = '_' ∧ isDigitChar c2 then digitPartAux (10 * acc + (c2.toNat - 48)) rest
    else none

/-- Parse a Python integer digit part: nonempty, starts with a digit,
single `_` separators allowed between digits. -/
def parseDigitPart (s : List Char) : Option Nat :=
  match s with
  | [] => none
  | c :: _ => if isDigitChar c then digitPartAux 0 s else none

/-- ASCII model of Python `int(str)`: strip whitespace, optional sign,
then a digit part.  `none` models a raised `ValueError`. -/
def pyInt (s : List Char) : Option Int :=
  match pyStrip s with
  | [] => none
  | c :: rest =>
    if c = '+' then (parseDigitPart rest).map (fun n => (n : Int))
    else if c = '-' then (parseDigitPart rest).map (fun n => -(n : Int))
    else (parseDigitPart (c :: rest)).map (fun n => (n : Int))

/-- Prepend a character to the first chunk of a split result. -/
def consFirst (c : Char) : List (List Char) → List (List Char)
  | [] => [[c]]
  | p :: ps => (c :: p) :: ps

/-- Python `s.split("..")`: split on each leftmost non-overlapping
occurrence of `..`. -/
def splitDots : List Char → List (List Char)
  | [] => [[]]
  | [c] => [[c]]
  | c :: c2 :: rest =>
    if c = '.' ∧ c2 = '.' then [] :: splitDots rest
    else consFirst c (splitDots (c2 :: rest))

/-- Does `s` contain the substring `..` (Python `".." in s`)? -/
def containsDots : List Char → Bool
  | [] => false
  | c :: rest => (c = '.' && rest.head? == some '.') || containsDots rest

/-- `re` helper: match `\d+\.\.\d+` anchored at the start of `s`
(greedy digit runs; no backtracking is needed because a shortened
digit run is followed by a digit, never by `.`). -/
def matchRangeAt (s : List Char) : Option (Nat × Nat) :=
  let d1 := s.takeWhile isDigitChar
  if d1 = [] then none
  else
    match s.drop d1.length with
    | '.' :: '.' :: rest =>
      let d2 := rest.takeWhile isDigitChar
      if d2 = [] then none else some (digitsVal d1, digitsVal d2)
    | _ => none

/-- `re.search(r"(\d+)\.\.(\d+)", s)`: leftmost match of the range
pattern, returning the two captured numbers. -/
def searchRange : List Char → Option (Nat × Nat)
  | [] => none
  | c :: rest =>
    match matchRangeAt (c :: rest) with
    | some p => some p
    | none => searchRange rest

/-- The `".." in location_str` branch of `parse_location`:
`start_str, end_str = location_str.split("..")` (exactly two chunks or
`ValueError`), then `int(re.sub(r"[<>]", "", part))` on each side. -/
def rangeParse (s : List Char) : Option (Int × Int) :=
  match splitDots s with
  | [a, b] =>
    match pyInt (stripAngles a), pyInt (stripAngles b) with
    | some x, some y => some (x, y)
    | _, _ => none
  | _ => none

/-- Core of `GBFFParser.parse_location` after the `complement(...)`
wrapper has been handled: computes `(start, end)`; every parse failure
falls back to `(1, 1)` exactly as the Python `except`/fallback paths do. -/
def resolveCore (s : List Char) : Int × Int :=
  if ( "join(".data).isPrefixOf s then
    match searchRange s with
    | some (a, b) => ((a : Int), (b : Int))
    | none => (1, 1)
  else if containsDots s then
    match rangeParse s with
    | some p => p
    | none => (1, 1)
  else
    match pyInt (stripAngles s) with
    | some n => (n, n)
    | none => (1, 1)

/-- `GBFFParser.parse_location`: strand is `-` exactly when the string
starts with `complement(`, in which case `location_str[11:-1]` (drop the
first 11 characters and the last one) is resolved; otherwise the string
itself is resolved with strand `+`. -/
def parse_location (s : List Char) : Int × Int × List Char :=
  if ( "complement(".data).isPrefixOf s then
    ((resolveCore ((s.drop 11).dropLast)).1, (resolveCore ((s.drop 11).dropLast)).2, "-".data)
  else
    ((resolveCore s).1, (resolveCore s).2, "+".data)

/-- The string handed to the range/join/single-position logic of
`parse_location` (the location with a `complement(...)` wrapper removed). -/
def locStripped (s : List Char) : List Char :=
  if ( "complement(".data).isPrefixOf s then (s.drop 11).dropLast else s

/-- The strand `parse_location` reports, determined by the
`complement(` wrapper alone. -/
def locStrand (s : List Char) : List Char :=
  if ( "complement(".data).isPrefixOf s then "-".data else "+".data

/-- The location string cannot be parsed as a join, a range, or a single
position: the branch of `parse_location` selected for it reaches its
fallback (`re.search` finds nothing, the `..`-split/int conversion raises
`ValueError`, or the single-position int conversion raises `ValueError`). -/
def locUnparsable (s : List Char) : Prop :=
  if ( "join(".data).isPrefixOf (locStripped s) then
    searchRange (locStripped s) = none
  else if containsDots (locStripped s) then
    rangeParse (locStripped s) = none
  else
    pyInt (stripAngles (locStripped s)) = none

instance (s : List Char) : Decidable (locUnparsable s) := by
  unfold locUnparsable
  split
  · exact inferInstance
  · split <;> exact inferInstance

/-! ## Qualifier extraction (`GBFFParser.extract_attributes`) -/

/-- The qualifier map: a Python `dict` restricted to the operations the
converter performs (membership / lookup, and assignment which overwrites
the value of an existing key). -/
abbrev AttrMap := List (List Char × List Char)

/-- Python `d[k]` / `k in d` lookup. -/
def dlookup (k : List Char) : AttrMap → Option (List Char)
  | [] => none
  | (k', v) :: rest => if k' = k then some v else dlookup k rest

/-- Python `d[k] = v`: overwrite in place if present, else append. -/
def dinsert (k v : List Char) : AttrMap → AttrMap
  | [] => [(k, v)]
  | (k', v') :: rest => if k' = k then (k, v) :: rest else (k', v') :: dinsert k v rest

/-- Python `c in s` for a single character. -/
def containsChar (c : Char) (s : List Char) : Bool :=
  s.any (fun x => x = c)

/-- Python `s.split("=", 1)` for a string known to contain `=`:
the part before the first `=` and the part after it. -/
def splitEq1 (s : List Char) : List Char × List Char :=
  (s.takeWhile (fun c => decide (c ≠ '=')), (s.dropWhile (fun c => decide (c ≠ '='))).tail)

/-- Flush the pending qualifier (`if current_qualifier: attributes[...] =
current_value.strip('"')`); Python truthiness skips both `None` and the
empty-string key. -/
def flushQ (q : Option (List Char)) (v : List Char) (m : AttrMap) : AttrMap :=
  match q with
  | none => m
  | some k => if k = [] then m else dinsert k (stripQuotes v) m

/-- The loop of `extract_attributes` over the feature's qualifier lines,
carrying `(current_qualifier, current_value, attributes)`. -/
def extractAux (q : Option (List Char)) (v : List Char) (m : AttrMap) :
    List (List Char) → AttrMap
  | [] => flushQ q v m
  | line :: rest =>
    let t := pyStrip line
    if t.head? = some '/' then
      let m' := flushQ q v m
      if containsChar '=' t then
        extractAux (some (splitEq1 t.tail).1) (splitEq1 t.tail).2 m' rest
      else
        extractAux (some t.tail) [] m' rest
    else
      extractAux q (v ++ ' ' :: t) m rest

/-- `GBFFParser.extract_attributes`. -/
def extract_attributes (feature_lines : List (List Char)) : AttrMap :=
  extractAux none [] [] feature_lines

/-! ## Attribute formatting (`GBFFParser.format_gff_attributes`) -/

/-- One Python `s.replace(t, r)` for a single-character target. -/
def replaceChar (t : Char) (r : List Char) (s : List Char) : List Char :=
  s.flatMap (fun c => if c = t then r else [c])

/-- `.replace(";", "%3B").replace("=", "%3D").replace("&", "%26")`,
applied in the source's textual order. -/
def escapeSpecial (s : List Char) : List Char :=
  replaceChar '&' ( "%26".data) (replaceChar '=' ( "%3D".data) (replaceChar ';' ( "%3B".data) s))

/-- Python `";".join(tokens)`. -/
def joinSemi (tokens : List (List Char)) : List Char :=
  List.intercalate [';'] tokens

/-- `GBFFParser.format_gff_attributes`. -/
def format_gff_attributes (attributes : AttrMap) (feature_type : List Char) : List Char :=
  let l1 :=
    match dlookup ( "locus_tag".data) attributes with
    | some lt => [ "ID=".data ++ lt, "Name=".data ++ lt]
    | none =>
      match dlookup ( "gene".data) attributes with
      | some g => [ "ID=".data ++ g, "Name=".data ++ g]
      | none => []
  let l2 := l1 ++
    (match dlookup ( "product".data) attributes with
     | some p => [ "product=".data ++ escapeSpecial p]
     | none => [])
  let l3 := l2 ++
    (match dlookup ( "gene".data) attributes with
     | some g => if feature_type ≠ "gene".data then [ "gene=".data ++ g] else []
     | none => [])
  let l4 := l3 ++
    (match dlookup ( "protein_id".data) attributes with
     | some p => [ "protein_id=".data ++ p]
     | none => [])
  let l5 := l4 ++
    (match dlookup ( "translation".data) attributes with
     | some t =>
       [ "translation=".data ++ (if 50 < t.length then t.take 50 ++ "...".data else t)]
     | none => [])
  let l6 := l5 ++
    (match dlookup ( "note".data) attributes with
     | some n => [ "note=".data ++ escapeSpecial n]
     | none => [])
  if l6 = [] then ".".data else joinSemi l6

/-- The attribute tokens as the specification words them: `ID`/`Name`
from `locus_tag` else `gene` else neither; then escaped `product`; then
`gene` unless the feature type is literally `gene`; then `protein_id`
verbatim; then `translation` truncated to 50 characters plus `...` when
longer; then escaped `note`.  Used to state the refinement claim about
`format_gff_attributes`. -/
def specAttrTokens (attributes : AttrMap) (feature_type : List Char) : List (List Char) :=
  (match dlookup ( "locus_tag".data) attributes with
   | some lt => [ "ID=".data ++ lt, "Name=".data ++ lt]
   | none =>
     match dlookup ( "gene".data) attributes with
     | some g => [ "ID=".data ++ g, "Name=".data ++ g]
     | none => []) ++
  ((dlookup ( "product".data) attributes).map
    (fun p => "product=".data ++ escapeSpecial p)).toList ++
  (if feature_type ≠ "gene".data then
    ((dlookup ( "gene".data) attributes).map (fun g => "gene=".data ++ g)).toList
   else []) ++
  ((dlookup ( "protein_id".data) attributes).map
    (fun p => "protein_id=".data ++ p)).toList ++
  ((dlookup ( "translation".data) attributes).map
    (fun t => "translation=".data ++ (if 50 < t.length then t.take 50 ++ "...".data else t))).toList ++
  ((dlookup ( "note".data) attributes).map
    (fun n => "note=".data ++ escapeSpecial n)).toList

/-! ## Feature-table scanning (the loop of `GBFFParser.parse_gbff_file`) -/

/-- Qualifier/continuation line test of the inner `while`:
`lines[i].startswith(21 spaces) or (len(lines[i]) > 20 and
lines[i][:21].strip() == "")`. -/
def isQualLine (l : List Char) : Bool :=
  ( "                     ".data).isPrefixOf l ||
    (decide (20 < l.length) && (l.take 21).all isSpaceChar)

/-- Backtracking step of `\s+(.+)`: greedily choose the largest `k ≥ 1`
whitespace characters for `\s+` such that at least one non-newline
character remains for `.+`. -/
def findK (rest : List Char) : Nat → Option Nat
  | 0 => none
  | k + 1 =>
    match (rest.drop (k + 1)).head? with
    | none => findK rest k
    | some c => if c = '\n' then findK rest k else some (k + 1)

/-- Match `\s+(.+)` against `rest`, returning the `.+` capture. -/
def matchTail (rest : List Char) : Option (List Char) :=
  match findK rest (rest.takeWhile isSpaceChar).length with
  | some k => some ((rest.drop k).takeWhile (fun c => c ≠ '\n'))
  | none => none

/-- `re.match(r"     (\w+)\s+(.+)", line)`: five literal spaces, a
nonempty word-character run (the feature type), then `\s+(.+)` (the
location capture). -/
def headerMatch (line : List Char) : Option (List Char × List Char) :=
  if ( "     ".data).isPrefixOf line then
    let rest0 := line.drop 5
    let w := rest0.takeWhile isWordChar
    if w = [] then none
    else
      match matchTail (rest0.drop w.length) with
      | some loc => some (w, loc)
      | none => none
  else none

/-- One scanned feature: type, raw location string, and the qualifier
lines consumed for it. -/
structure Feature where
  ftype : List Char
  location : List Char
  qualifier_lines : List (List Char)
deriving DecidableEq

/-- Length bound used for the scanner's fuel argument. -/
theorem dropWhileLenLe (p : α → Bool) (l : List α) :
    (l.dropWhile p).length ≤ l.length := by
  induction l with
  | nil => simp [List.dropWhile]
  | cons a l ih =>
    by_cases h : p a = true
    · simp [List.dropWhile, h]; omega
    · simp [List.dropWhile, h]

/-- The feature-scanning loop of `parse_gbff_file` on one record's lines,
carrying the `in_features` flag: `FEATURES` turns the flag on; `ORIGIN`
or `//` stops the scan; a line with more than 5 characters whose index-5
character is not a space is tried against the header regex, and on a
match the following qualifier lines are greedily consumed.  The `fuel`
argument only drives structural recursion; it is irrelevant as soon as
it bounds the number of lines (`scanFeaturesAuxCongr`). -/
def scanFeaturesAux : Nat → Bool → List (List Char) → List Feature
  | 0, _, _ => []
  | _ + 1, _, [] => []
  | fuel + 1, inF, line :: rest =>
    if ( "FEATURES".data).isPrefixOf line then scanFeaturesAux fuel true rest
    else if ( "ORIGIN".data).isPrefixOf line || ( "//".data).isPrefixOf line then []
    else if inF = true ∧ 5 < line.length ∧ line.getD 5 ' ' ≠ ' ' then
      match headerMatch line with
      | some tl =>
        ⟨tl.1, tl.2, rest.takeWhile isQualLine⟩ ::
          scanFeaturesAux fuel inF (rest.dropWhile isQualLine)
      | none => scanFeaturesAux fuel inF rest
    else scanFeaturesAux fuel inF rest

/-- The feature scan of one record. -/
def scanFeatures (inF : Bool) (ls : List (List Char)) : List Feature :=
  scanFeaturesAux ls.length inF ls

/-! ## Record splitting and header scanning -/

/-- Python `content.split("//\n")`: split on each leftmost
non-overlapping occurrence of the three characters `/`, `/`, newline. -/
def splitSep : List Char → List (List Char)
  | [] => [[]]
  | [c] => [[c]]
  | [c, c2] => [[c, c2]]
  | c :: c2 :: c3 :: rest =>
    if c = '/' ∧ c2 = '/' ∧ c3 = '\n' then [] :: splitSep rest
    else consFirst c (splitSep (c2 :: c3 :: rest))

/-- Does the text contain the separator `//\n`? -/
def hasSep : List Char → Bool
  | [] => false
  | c :: rest =>
    (c = '/' && rest.head? == some '/' && rest.tail.head? == some '\n') || hasSep rest

/-- The record list the converter iterates over: the separator chunks
with empty/whitespace-only chunks discarded
(`if not record.strip(): continue`). -/
def recordsOf (content : List Char) : List (List Char) :=
  (splitSep content).filter (fun r => !(pyStrip r).isEmpty)

/-- Python `record.split("\n")`. -/
def pySplitNl : List Char → List (List Char)
  | [] => [[]]
  | c :: rest =>
    if c = '\n' then [] :: pySplitNl rest
    else consFirst c (pySplitNl rest)

/-- Helper for Python `str.split()` with no argument: accumulate the
current word (reversed) and emit words at whitespace boundaries. -/
def wordsAux (acc : List Char) : List Char → List (List Char)
  | [] => if acc = [] then [] else [acc.reverse]
  | c :: rest =>
    if isSpaceChar c then
      if acc = [] then wordsAux [] rest else acc.reverse :: wordsAux [] rest
    else wordsAux (c :: acc) rest

/-- Python `line.split()`: whitespace-delimited tokens, no empties. -/
def pySplitWs (s : List Char) : List (List Char) :=
  wordsAux [] s

/-- Python truthiness of the `seqid` variable (`None` and `""` are falsy). -/
def pyFalsy : Option (List Char) → Bool
  | none => true
  | some s => s.isEmpty

/-- The seqid/length scan of `parse_gbff_file` over a record's lines:
every `LOCUS` line with at least 3 tokens overwrites both `seqid` and
`seq_length`; an `ACCESSION` line sets `seqid` (to its token index 1)
only while `seqid` is falsy, raising `IndexError` (modelled as `none`)
when that token does not exist. -/
def scanIds (sid slen : Option (List Char)) :
    List (List Char) → Option (Option (List Char) × Option (List Char))
  | [] => some (sid, slen)
  | l :: rest =>
    if ( "LOCUS".data).isPrefixOf l then
      if 3 ≤ (pySplitWs l).length then
        scanIds (some ((pySplitWs l).getD 1 [])) (some ((pySplitWs l).getD 2 [])) rest
      else scanIds sid slen rest
    else if ( "ACCESSION".data).isPrefixOf l then
      if pyFalsy sid then
        if 2 ≤ (pySplitWs l).length then
          scanIds (some ((pySplitWs l).getD 1 [])) slen rest
        else none
      else scanIds sid slen rest
    else scanIds sid slen rest

/-- The seqid the driver uses: the scanned id, defaulting to `unknown`
(`if not seqid: seqid = "unknown"`). -/
def seqidOf (sid : Option (List Char)) : List Char :=
  if pyFalsy sid then "unknown".data else sid.getD []

/-- The record's seqid; `none` models the `IndexError`. -/
def recordSeqid (lines : List (List Char)) : Option (List Char) :=
  match scanIds none none lines with
  | none => none
  | some (sid, _) => some (seqidOf sid)

/-! ## The converter driver (`GBFFParser.parse_gbff_file`) -/

/-- Decimal digits of a natural number (fuel-driven recursion; the fuel
`n + 1` always suffices since a number has at most `n + 1` digits). -/
def natDigitsAux : Nat → Nat → List Char
  | 0, _ => []
  | fuel + 1, n =>
    if n < 10 then [Char.ofNat (48 + n)]
    else natDigitsAux fuel (n / 10) ++ [Char.ofNat (48 + n % 10)]

/-- Decimal digits of a natural number, as Python `str` renders it. -/
def natDigitsStr (n : Nat) : List Char :=
  natDigitsAux (n + 1) n

/-- Python `str(i)` for an `int` (an f-string interpolation of it). -/
def intStr (n : Int) : List Char :=
  if n < 0 then '-' :: natDigitsStr n.natAbs else natDigitsStr n.natAbs

/-- Join columns with tab characters, as the output f-string does. -/
def tabJoin (cols : List (List Char)) : List Char :=
  List.intercalate ['\t'] cols

/-- One GFF output line for a feature: seqid, source `GenBank`, type,
resolved start/end, score `.`, resolved strand, phase (`0` for `CDS`,
else `.`), and the formatted attributes. -/
def featureLine (seqid : List Char) (f : Feature) : List Char :=
  tabJoin [seqid, "GenBank".data, f.ftype,
    intStr (parse_location f.location).1,
    intStr (parse_location f.location).2.1,
    ".".data,
    (parse_location f.location).2.2,
    (if f.ftype = "CDS".data then "0".data else ".".data),
    format_gff_attributes (extract_attributes f.qualifier_lines) f.ftype]

/-- The `##sequence-region` directive lines of one record: exactly one
when the scanned length is a nonempty digit string
(`if seq_length and seq_length.isdigit()`), else none. -/
def regionLines (slen : Option (List Char)) (seqid : List Char) : List (List Char) :=
  match slen with
  | some L => if L ≠ [] ∧ L.all isDigitChar then
      [ "##sequence-region ".data ++ seqid ++ " 1 ".data ++ L]
    else []
  | none => []

/-- The lines written for one record: the `##sequence-region` directive
when a numeric length was scanned, then one line per scanned feature;
`none` models the uncaught `IndexError` from the id scan. -/
def recordOut (record : List Char) : Option (List (List Char)) :=
  match scanIds none none (pySplitNl record) with
  | none => none
  | some (sid, slen) =>
    some (regionLines slen (seqidOf sid) ++
      (scanFeatures false (pySplitNl record)).map (featureLine (seqidOf sid)))

/-- Process the records in order, concatenating their output lines and
stopping at the first record whose processing raises. -/
def convertRecords : List (List Char) → List (List Char) × Bool
  | [] => ([], true)
  | r :: rs =>
    match recordOut r with
    | none => ([], false)
    | some ls =>
      ((ls ++ (convertRecords rs).1), (convertRecords rs).2)

/-- `GBFFParser.parse_gbff_file` as a function from the input text to
the list of output lines (and a flag that is `false` when the
conversion aborted with an exception after the lines produced so far). -/
def convert (content : List Char) : List (List Char) × Bool :=
  ( "##gff-version 3".data :: (convertRecords (recordsOf content)).1,
    (convertRecords (recordsOf content)).2)

/-! ## General helper lemmas -/

theorem isPrefixOfAppendSelf (l t : List Char) : l.isPrefixOf (l ++ t) = true := by
  induction l with
  | nil => simp [List.isPrefixOf]
  | cons c l ih => simp [List.isPrefixOf, ih]

theorem headOfIsPrefixOf {c : Char} {cs l : List Char}
    (h : (c :: cs).isPrefixOf l = true) : l.head? = some c := by
  cases l with
  | nil => simp [List.isPrefixOf] at h
  | cons b bs =>
    simp only [List.isPrefixOf, Bool.and_eq_true, beq_iff_eq] at h
    simp [h.1]

theorem notPrefixOfHeadNe {c b : Char} {cs l : List Char}
    (hb : l.head? = some b) (hne : b ≠ c) : (c :: cs).isPrefixOf l = false := by
  cases hp : (c :: cs).isPrefixOf l with
  | false => rfl
  | true =>
    have hh := headOfIsPrefixOf hp
    rw [hb] at hh
    exact absurd (Option.some.inj hh) hne

theorem appendOfIsPrefixOf : ∀ {p l : List Char}, p.isPrefixOf l = true → ∃ t, l = p ++ t := by
  intro p
  induction p with
  | nil => exact fun h => ⟨_, rfl⟩
  | cons c cs ih =>
    intro l h
    cases l with
    | nil => simp [List.isPrefixOf] at h
    | cons b bs =>
      simp only [List.isPrefixOf, Bool.and_eq_true, beq_iff_eq] at h
      obtain ⟨t, ht⟩ := ih h.2
      exact ⟨t, by simp [← h.1, ht]⟩

theorem dropWhileEqSelf {p : Char → Bool} {l : List Char}
    (h : ∀ c, l.head? = some c → p c = false) : l.dropWhile p = l := by
  cases l with
  | nil => rfl
  | cons c rest =>
    have hc := h c rfl
    simp [List.dropWhile_cons, hc]

theorem pyStripEqSelf {l : List Char}
    (h1 : ∀ c, l.head? = some c → isSpaceChar c = false)
    (h2 : ∀ c, l.reverse.head? = some c → isSpaceChar c = false) :
    pyStrip l = l := by
  unfold pyStrip
  rw [dropWhileEqSelf h1, dropWhileEqSelf h2, List.reverse_reverse]

theorem charClassNe {f : Char → Bool} {c d : Char}
    (hc : f c = true) (hd : f d = false) : c ≠ d := by
  intro h
  subst h
  simp [hc] at hd

theorem digitNotSpace {c : Char} (hc : isDigitChar c = true) : isSpaceChar c = false := by
  cases hs : isSpaceChar c with
  | false => rfl
  | true =>
    exfalso
    have hmem : ((((c = ' ' ∨ c = '\t') ∨ c = '\n') ∨ c = '\r') ∨ c = '\x0b') ∨ c = '\x0c' := by
      simpa [isSpaceChar] using hs
    rcases hmem with ⟨⟨⟨⟨rfl | rfl⟩ | rfl⟩ | rfl⟩ | rfl⟩ | rfl <;> exact absurd hc (by decide)

theorem digitPartAuxAll : ∀ (ds : List Char) (acc : Nat), ds.all isDigitChar = true →
    digitPartAux acc ds = some (ds.foldl (fun n c => 10 * n + (c.toNat - 48)) acc) := by
  intro ds
  induction ds with
  | nil => intro acc _; rfl
  | cons c rest ih =>
    intro acc h
    simp only [List.all_cons, Bool.and_eq_true] at h
    cases rest with
    | nil =>
      show (if isDigitChar c then some (10 * acc + (c.toNat - 48)) else none) = _
      rw [if_pos h.1]
      rfl
    | cons c2 rest2 =>
      show (if isDigitChar c then digitPartAux (10 * acc + (c.toNat - 48)) (c2 :: rest2)
            else if c = '_' ∧ isDigitChar c2 then
              digitPartAux (10 * acc + (c2.toNat - 48)) rest2
            else none) = _
      rw [if_pos h.1, ih _ h.2]
      rfl

theorem pyIntDigits {ds : List Char} (hne : ds ≠ []) (hall : ds.all isDigitChar = true) :
    pyInt ds = some ((digitsVal ds : Nat) : Int) := by
  cases ds with
  | nil => exact absurd rfl hne
  | cons c rest =>
    have hall' := hall
    simp only [List.all_cons, Bool.and_eq_true] at hall'
    have hcd : isDigitChar c = true := hall'.1
    have hstrip : pyStrip (c :: rest) = c :: rest := by
      apply pyStripEqSelf
      · intro b hb
        rw [List.head?_cons] at hb
        cases hb
        exact digitNotSpace hcd
      · intro b hb
        have hmem : b ∈ (c :: rest).reverse := List.mem_of_mem_head? hb
        rw [List.mem_reverse] at hmem
        rw [List.all_eq_true] at hall
        exact digitNotSpace (hall b hmem)
    have hplus : c ≠ '+' := charClassNe hcd (by decide)
    have hminus : c ≠ '-' := charClassNe hcd (by decide)
    unfold pyInt
    rw [hstrip]
    show (if c = '+' then (parseDigitPart rest).map (fun n => (n : Int))
          else if c = '-' then (parseDigitPart rest).map (fun n => -(n : Int))
          else (parseDigitPart (c :: rest)).map (fun n => (n : Int))) = _
    rw [if_neg hplus, if_neg hminus]
    show ((if isDigitChar c then digitPartAux 0 (c :: rest) else none).map
      (fun n => (n : Int))) = _
    rw [if_pos hcd, digitPartAuxAll _ _ hall]
    rfl

theorem stripAnglesDigits {ds : List Char} (h : ds.all isDigitChar = true) :
    stripAngles ds = ds := by
  unfold stripAngles
  rw [List.filter_eq_self]
  intro a ha
  rw [List.all_eq_true] at h
  have had : isDigitChar a = true := h a ha
  have h1 : a ≠ '<' := charClassNe had (by decide)
  have h2 : a ≠ '>' := charClassNe had (by decide)
  simp [h1, h2]

theorem stripAnglesFuzzyDigits {m ds : List Char}
    (hm : m = [] ∨ m = ['<'] ∨ m = ['>']) (hall : ds.all isDigitChar = true) :
    stripAngles (m ++ ds) = ds := by
  unfold stripAngles
  rw [List.filter_append]
  have hds : ds.filter (fun c => !(c = '<' || c = '>')) = ds := stripAnglesDigits hall
  rcases hm with rfl | rfl | rfl
  · simpa using hds
  · simpa using hds
  · simpa using hds

theorem containsDotsAppendSep (A B : List Char) :
    containsDots (A ++ '.' :: '.' :: B) = true := by
  induction A with
  | nil => simp [containsDots]
  | cons c A ih => simp [containsDots, ih]

theorem splitDotsNoDot : ∀ {A : List Char}, (∀ c ∈ A, c ≠ '.') → splitDots A = [A] := by
  intro A
  induction A with
  | nil => intro _; rfl
  | cons c A ih =>
    intro h
    have hc : c ≠ '.' := h c (by simp)
    cases A with
    | nil => rfl
    | cons c2 A2 =>
      have hrest : splitDots (c2 :: A2) = [c2 :: A2] :=
        ih (fun x hx => h x (by simp [hx]))
      simp [splitDots, hc, hrest, consFirst]

theorem splitDotsSep : ∀ {A : List Char} (B : List Char), (∀ c ∈ A, c ≠ '.') →
    splitDots (A ++ '.' :: '.' :: B) = A :: splitDots B := by
  intro A
  induction A with
  | nil =>
    intro B _
    simp [splitDots]
  | cons c A ih =>
    intro B h
    have hc : c ≠ '.' := h c (by simp)
    cases A with
    | nil =>
      simp [splitDots, hc, consFirst]
    | cons c2 A2 =>
      have hrest := ih B (fun x hx => h x (by simp [hx]))
      simp only [List.cons_append] at hrest ⊢
      simp [splitDots, hc, hrest, consFirst]

theorem searchRangeConsNonDigit {c : Char} {l : List Char} (hc : isDigitChar c = false) :
    searchRange (c :: l) = searchRange l := by
  simp [searchRange, matchRangeAt, List.takeWhile_cons, hc]

theorem searchRangeJoin (s : List Char) :
    searchRange ( "join(".data ++ s) = searchRange s := by
  show searchRange ('j' :: 'o' :: 'i' :: 'n' :: '(' :: s) = searchRange s
  rw [searchRangeConsNonDigit (by decide), searchRangeConsNonDigit (by decide),
    searchRangeConsNonDigit (by decide), searchRangeConsNonDigit (by decide),
    searchRangeConsNonDigit (by decide)]

theorem notComplementOfHead {l : List Char} {b : Char}
    (hb : l.head? = some b) (hne : b ≠ 'c') :
    ( "complement(".data).isPrefixOf l = false := by
  have he : "complement(".data = 'c' :: "omplement(".data := rfl
  rw [he]
  exact notPrefixOfHeadNe hb hne

theorem notJoinOfHead {l : List Char} {b : Char}
    (hb : l.head? = some b) (hne : b ≠ 'j') :
    ( "join(".data).isPrefixOf l = false := by
  have he : "join(".data = 'j' :: "oin(".data := rfl
  rw [he]
  exact notPrefixOfHeadNe hb hne

theorem headFuzzyDigits {m ds : List Char} (hm : m = [] ∨ m = ['<'] ∨ m = ['>'])
    (hne : ds ≠ []) (hall : ds.all isDigitChar = true) (rest : List Char) :
    ∃ h0, ((m ++ ds) ++ rest).head? = some h0 ∧ h0 ≠ 'c' ∧ h0 ≠ 'j' := by
  rcases hm with rfl | rfl | rfl
  · cases ds with
    | nil => exact absurd rfl hne
    | cons c ds' =>
      simp only [List.all_cons, Bool.and_eq_true] at hall
      exact ⟨c, rfl, charClassNe hall.1 (by decide), charClassNe hall.1 (by decide)⟩
  · exact ⟨'<', rfl, by decide, by decide⟩
  · exact ⟨'>', rfl, by decide, by decide⟩

theorem noDotFuzzyDigits {m ds : List Char} (hm : m = [] ∨ m = ['<'] ∨ m = ['>'])
    (hall : ds.all isDigitChar = true) : ∀ c ∈ m ++ ds, c ≠ '.' := by
  intro c hc
  rw [List.mem_append] at hc
  rw [List.all_eq_true] at hall
  rcases hc with hc | hc
  · rcases hm with rfl | rfl | rfl
    · simp at hc
    · simp at hc; subst hc; decide
    · simp at hc; subst hc; decide
  · exact charClassNe (hall c hc) (by decide)

theorem containsDotsNone {l : List Char} (h : ∀ c ∈ l, c ≠ '.') : containsDots l = false := by
  induction l with
  | nil => rfl
  | cons c rest ih =>
    have hc : c ≠ '.' := h c (by simp)
    simp [containsDots, hc, ih (fun x hx => h x (by simp [hx]))]

theorem rangeParseFuzzy {m1 ds1 m2 ds2 : List Char}
    (hm1 : m1 = [] ∨ m1 = ['<'] ∨ m1 = ['>']) (hm2 : m2 = [] ∨ m2 = ['<'] ∨ m2 = ['>'])
    (hne1 : ds1 ≠ []) (hne2 : ds2 ≠ [])
    (hall1 : ds1.all isDigitChar = true) (hall2 : ds2.all isDigitChar = true) :
    rangeParse ((m1 ++ ds1) ++ '.' :: '.' :: (m2 ++ ds2)) =
      some ((digitsVal ds1 : Int), (digitsVal ds2 : Int)) := by
  unfold rangeParse
  rw [splitDotsSep _ (noDotFuzzyDigits hm1 hall1),
    splitDotsNoDot (noDotFuzzyDigits hm2 hall2)]
  show (match pyInt (stripAngles (m1 ++ ds1)), pyInt (stripAngles (m2 ++ ds2)) with
        | some x, some y => some ((x, y) : Int × Int)
        | _, _ => none) = _
  rw [stripAnglesFuzzyDigits hm1 hall1, stripAnglesFuzzyDigits hm2 hall2,
    pyIntDigits hne1 hall1, pyIntDigits hne2 hall2]

/-! ## Claim C1: totality and fallback of the Location Resolver -/

/-- C1: for every input string `parse_location` returns a strand that is
`+` or `-`, determined by the `complement(...)` wrapper alone, and on any
string whose selected branch cannot parse (not a join with a findable
range, not a splittable integer range, not an integer position) it
returns `(1, 1, strand)`; being a total Lean function, it never raises. -/
theorem c1_resolver_total_fallback (s : List Char) :
    ((parse_location s).2.2 = "+".data ∨ (parse_location s).2.2 = "-".data) ∧
    (parse_location s).2.2 = locStrand s ∧
    (locUnparsable s → parse_location s = (1, 1, locStrand s)) := by
  refine ⟨?_, ?_, ?_⟩
  · unfold parse_location
    split
    · exact Or.inr rfl
    · exact Or.inl rfl
  · unfold parse_location locStrand
    split
    · rfl
    · rfl
  · intro hu
    unfold locUnparsable locStripped at hu
    unfold parse_location locStrand resolveCore
    by_cases hc : ( "complement(".data).isPrefixOf s = true
    · simp only [hc, if_true] at hu ⊢
      by_cases hj : ( "join(".data).isPrefixOf ((s.drop 11).dropLast) = true
      · simp only [hj, if_true] at hu ⊢
        simp [hu]
      · simp only [hj, if_false, Bool.false_eq_true] at hu ⊢
        by_cases hd : containsDots ((s.drop 11).dropLast) = true
        · simp only [hd, if_true] at hu ⊢
          simp [hu]
        · simp only [hd, if_false, Bool.false_eq_true] at hu ⊢
          simp [hu]
    · simp only [hc, if_false, Bool.false_eq_true] at hu ⊢
      by_cases hj : ( "join(".data).isPrefixOf s = true
      · simp only [hj, if_true] at hu ⊢
        simp [hu]
      · simp only [hj, if_false, Bool.false_eq_true] at hu ⊢
        by_cases hd : containsDots s = true
        · simp only [hd, if_true] at hu ⊢
          simp [hu]
        · simp only [hd, if_false, Bool.false_eq_true] at hu ⊢
          simp [hu]

/-- Witness for C1 at the unparsable location string `abc`. -/
theorem c1_witness : parse_location ( "abc".data) = (1, 1, "+".data) :=
  (((c1_resolver_total_fallback ( "abc".data)).2.2) (by decide)).trans (by decide)

/-! ## Claim C9: extraction/formatting round trip (concrete) -/

/-- C9: the qualifier line `/note="hello; world"` extracts to the map
entry `note ↦ hello; world` (outer quotes stripped), and formatting that
map escapes `;` to `%3B`, producing the attribute column
`note=hello%3B world`. -/
theorem c9_roundtrip :
    extract_attributes [ "/note=\"hello; world\"".data] =
      [( "note".data, "hello; world".data)] ∧
    format_gff_attributes [( "note".data, "hello; world".data)] ( "CDS".data) =
      "note=hello%3B world".data :=
  ⟨by decide, by decide⟩

/-! ## Claim C6: seqid scanning -/

theorem wordsAuxNeNil : ∀ (s acc : List Char), ∀ t ∈ wordsAux acc s, t ≠ [] := by
  intro s
  induction s with
  | nil =>
    intro acc t ht
    simp only [wordsAux] at ht
    by_cases ha : acc = []
    · rw [if_pos ha] at ht
      simp at ht
    · rw [if_neg ha] at ht
      rcases List.mem_singleton.1 ht with rfl
      simp [ha]
  | cons c s ih =>
    intro acc t ht
    simp only [wordsAux] at ht
    by_cases hsp : isSpaceChar c = true
    · rw [if_pos hsp] at ht
      by_cases ha : acc = []
      · rw [if_pos ha] at ht
        exact ih [] t ht
      · rw [if_neg ha] at ht
        rcases List.mem_cons.1 ht with rfl | ht'
        · simp [ha]
        · exact ih [] t ht'
    · rw [if_neg hsp] at ht
      exact ih (c :: acc) t ht

theorem pySplitWsGetDNeNil {l : List Char} {i : Nat} (h : i < (pySplitWs l).length) :
    (pySplitWs l).getD i [] ≠ [] := by
  have hmem : (pySplitWs l).getD i [] ∈ pySplitWs l := by
    rw [List.getD_eq_getElem?_getD, List.getElem?_eq_getElem h]
    exact List.getElem_mem h
  exact wordsAuxNeNil l [] _ hmem

theorem scanIdsSticky : ∀ (post : List (List Char)) (x : List Char)
    (slen : Option (List Char)), x ≠ [] →
    (∀ l ∈ post, ¬(( "LOCUS".data).isPrefixOf l = true ∧ 3 ≤ (pySplitWs l).length)) →
    scanIds (some x) slen post = some (some x, slen) := by
  intro post
  induction post with
  | nil => intro x slen _ _; rfl
  | cons l post ih =>
    intro x slen hx h
    have hl := h l (by simp)
    have hrest : ∀ y ∈ post, ¬(( "LOCUS".data).isPrefixOf y = true ∧ 3 ≤ (pySplitWs y).length) :=
      fun y hy => h y (by simp [hy])
    simp only [scanIds]
    by_cases hL : ( "LOCUS".data).isPrefixOf l = true
    · rw [if_pos hL, if_neg (fun hc => hl ⟨hL, hc⟩)]
      exact ih x slen hx hrest
    · rw [if_neg hL]
      by_cases hA : ( "ACCESSION".data).isPrefixOf l = true
      · rw [if_pos hA]
        have hfal : ¬(pyFalsy (some x) = true) := by
          simp [pyFalsy, hx]
        rw [if_neg hfal]
        exact ih x slen hx hrest
      · rw [if_neg hA]
        exact ih x slen hx hrest

theorem scanIdsThrough : ∀ (pre : List (List Char)) (sid slen : Option (List Char))
    (rest : List (List Char)),
    (∀ l ∈ pre, ( "ACCESSION".data).isPrefixOf l = true → 2 ≤ (pySplitWs l).length) →
    ∃ sid' slen', scanIds sid slen (pre ++ rest) = scanIds sid' slen' rest := by
  intro pre
  induction pre with
  | nil => intro sid slen rest _; exact ⟨sid, slen, rfl⟩
  | cons l pre ih =>
    intro sid slen rest h
    have hrest : ∀ y ∈ pre, ( "ACCESSION".data).isPrefixOf y = true → 2 ≤ (pySplitWs y).length :=
      fun y hy => h y (by simp [hy])
    rw [List.cons_append]
    simp only [scanIds]
    by_cases hL : ( "LOCUS".data).isPrefixOf l = true
    · rw [if_pos hL]
      by_cases h3 : 3 ≤ (pySplitWs l).length
      · rw [if_pos h3]
        exact ih _ _ rest hrest
      · rw [if_neg h3]
        exact ih _ _ rest hrest
    · rw [if_neg hL]
      by_cases hA : ( "ACCESSION".data).isPrefixOf l = true
      · rw [if_pos hA]
        by_cases hf : pyFalsy sid = true
        · rw [if_pos hf, if_pos (h l (by simp) hA)]
          exact ih _ _ rest hrest
        · rw [if_neg hf]
          exact ih _ _ rest hrest
      · rw [if_neg hA]
        exact ih _ _ rest hrest

theorem scanIdsSkip : ∀ (pre : List (List Char)) (sid slen : Option (List Char))
    (rest : List (List Char)),
    (∀ l ∈ pre, ( "ACCESSION".data).isPrefixOf l = false ∧
      ¬(( "LOCUS".data).isPrefixOf l = true ∧ 3 ≤ (pySplitWs l).length)) →
    scanIds sid slen (pre ++ rest) = scanIds sid slen rest := by
  intro pre
  induction pre with
  | nil => intro sid slen rest _; rfl
  | cons l pre ih =>
    intro sid slen rest h
    have hl := h l (by simp)
    have hrest : ∀ y ∈ pre, ( "ACCESSION".data).isPrefixOf y = false ∧
        ¬(( "LOCUS".data).isPrefixOf y = true ∧ 3 ≤ (pySplitWs y).length) :=
      fun y hy => h y (by simp [hy])
    rw [List.cons_append]
    simp only [scanIds]
    by_cases hL : ( "LOCUS".data).isPrefixOf l = true
    · rw [if_pos hL, if_neg (fun hc => hl.2 ⟨hL, hc⟩)]
      exact ih _ _ rest hrest
    · rw [if_neg hL, if_neg (by rw [hl.1]; simp)]
      exact ih _ _ rest hrest

/-- C6: the record's seqid is token 1 of the (last) `LOCUS` line having
at least 3 whitespace tokens; when no such `LOCUS` line exists it is
token 1 of the first `ACCESSION` line (assumed to have a second token,
otherwise the scan raises); when neither exists it is the literal
`unknown`. -/
theorem c6_record_seqid :
    (∀ (pre post : List (List Char)) (L : List Char),
      (∀ l ∈ pre, ( "ACCESSION".data).isPrefixOf l = true → 2 ≤ (pySplitWs l).length) →
      ( "LOCUS".data).isPrefixOf L = true → 3 ≤ (pySplitWs L).length →
      (∀ l ∈ post, ¬(( "LOCUS".data).isPrefixOf l = true ∧ 3 ≤ (pySplitWs l).length)) →
      recordSeqid (pre ++ L :: post) = some ((pySplitWs L).getD 1 [])) ∧
    (∀ (pre post : List (List Char)) (A : List Char),
      (∀ l ∈ pre ++ A :: post, ¬(( "LOCUS".data).isPrefixOf l = true ∧
        3 ≤ (pySplitWs l).length)) →
      (∀ l ∈ pre, ( "ACCESSION".data).isPrefixOf l = false) →
      ( "ACCESSION".data).isPrefixOf A = true → 2 ≤ (pySplitWs A).length →
      recordSeqid (pre ++ A :: post) = some ((pySplitWs A).getD 1 [])) ∧
    (∀ lines : List (List Char),
      (∀ l ∈ lines, ( "ACCESSION".data).isPrefixOf l = false ∧
        ¬(( "LOCUS".data).isPrefixOf l = true ∧ 3 ≤ (pySplitWs l).length)) →
      recordSeqid lines = some ( "unknown".data)) := by
  refine ⟨?_, ?_, ?_⟩
  · intro pre post L hacc hL h3 hpost
    unfold recordSeqid
    obtain ⟨sid', slen', hthrough⟩ := scanIdsThrough pre none none (L :: post) hacc
    rw [hthrough]
    simp only [scanIds]
    rw [if_pos hL, if_pos h3]
    have tok1ne : (pySplitWs L).getD 1 [] ≠ [] := pySplitWsGetDNeNil (by omega)
    rw [scanIdsSticky post _ _ tok1ne hpost]
    simp [seqidOf, pyFalsy, tok1ne]
    rw [List.getD_eq_getElem?_getD] at tok1ne
    exact fun hc => absurd hc tok1ne
  · intro pre post A hnoloc hpreacc hA h2
    unfold recordSeqid
    rw [scanIdsSkip pre none none (A :: post)
      (fun l hl => ⟨hpreacc l hl, hnoloc l (by simp [hl])⟩)]
    simp only [scanIds]
    have hLA : ( "LOCUS".data).isPrefixOf A = false := by
      have hhA : A.head? = some 'A' := by
        rw [show "ACCESSION".data = 'A' :: "CCESSION".data from rfl] at hA
        exact headOfIsPrefixOf hA
      rw [show "LOCUS".data = 'L' :: "OCUS".data from rfl]
      exact notPrefixOfHeadNe hhA (by decide)
    rw [if_neg (by rw [hLA]; simp), if_pos hA, if_pos (by rfl), if_pos h2]
    have tok1ne : (pySplitWs A).getD 1 [] ≠ [] := pySplitWsGetDNeNil (by omega)
    rw [scanIdsSticky post _ _ tok1ne (fun l hl => hnoloc l (by simp [hl]))]
    simp [seqidOf, pyFalsy, tok1ne]
    rw [List.getD_eq_getElem?_getD] at tok1ne
    exact fun hc => absurd hc tok1ne
  · intro lines h
    unfold recordSeqid
    have hskip := scanIdsSkip lines none none [] h
    rw [List.append_nil] at hskip
    rw [hskip]
    simp [scanIds, seqidOf, pyFalsy]

/-- Witness for C6 at a one-line record carrying a `LOCUS` id. -/
theorem c6_witness :
    recordSeqid [ "LOCUS AB123 500 bp".data] = some ( "AB123".data) := by
  have h := c6_record_seqid.1 [] [] ( "LOCUS AB123 500 bp".data)
    (by decide) (by decide) (by decide) (by decide)
  exact h.trans (by decide)

/-! ## Claim C7: the Record Splitter -/

theorem hasSepConsFalse {c : Char} {rest : List Char} (h : hasSep (c :: rest) = false) :
    hasSep rest = false ∧
    (c = '/' && rest.head? == some '/' && rest.tail.head? == some '\n') = false := by
  simp only [hasSep, Bool.or_eq_false_iff] at h
  exact ⟨h.2, h.1⟩

theorem splitSepNoSep : ∀ {A : List Char}, hasSep A = false → splitSep A = [A] := by
  intro A
  induction A with
  | nil => intro _; rfl
  | cons c A ih =>
    intro h
    obtain ⟨hA, hc⟩ := hasSepConsFalse h
    cases A with
    | nil => rfl
    | cons c2 A2 =>
      cases A2 with
      | nil => rfl
      | cons c3 A3 =>
        have hcond : ¬(c = '/' ∧ c2 = '/' ∧ c3 = '\n') := by
          rintro ⟨rfl, rfl, rfl⟩
          simp at hc
        simp only [splitSep]
        rw [if_neg hcond, ih hA]
        rfl

theorem splitSepSep : ∀ {A : List Char} (B : List Char), hasSep A = false →
    splitSep (A ++ '/' :: '/' :: '\n' :: B) = A :: splitSep B := by
  intro A
  induction A with
  | nil =>
    intro B _
    simp [splitSep]
  | cons c A ih =>
    intro B h
    obtain ⟨hA, hc⟩ := hasSepConsFalse h
    rw [List.cons_append]
    cases A with
    | nil =>
      simp only [List.nil_append]
      simp only [splitSep]
      simp [consFirst]
    | cons c2 A2 =>
      cases A2 with
      | nil =>
        simp only [List.cons_append, List.nil_append]
        simp only [splitSep]
        simp [consFirst]
      | cons c3 A3 =>
        have hcond : ¬(c = '/' ∧ c2 = '/' ∧ c3 = '\n') := by
          rintro ⟨rfl, rfl, rfl⟩
          simp at hc
        have hih := ih B hA
        simp only [List.cons_append] at hih ⊢
        simp only [splitSep]
        rw [if_neg hcond, hih]
        rfl

/-- C7 (amended): the splitter cuts the input at every occurrence of
the two characters `//` immediately followed by a newline (which need
not form a whole line on their own); each chunk between such separators
is one record, and chunks that are empty or whitespace-only are
discarded. -/
theorem c7_record_splitting :
    (∀ A B : List Char, hasSep A = false → pyStrip A ≠ [] →
      recordsOf (A ++ '/' :: '/' :: '\n' :: B) = A :: recordsOf B) ∧
    (∀ A B : List Char, hasSep A = false → pyStrip A = [] →
      recordsOf (A ++ '/' :: '/' :: '\n' :: B) = recordsOf B) ∧
    (∀ A : List Char, hasSep A = false →
      recordsOf A = if pyStrip A = [] then [] else [A]) := by
  refine ⟨?_, ?_, ?_⟩
  · intro A B hA hstrip
    unfold recordsOf
    rw [splitSepSep B hA, List.filter_cons]
    simp [hstrip]
  · intro A B hA hstrip
    unfold recordsOf
    rw [splitSepSep B hA, List.filter_cons]
    simp [hstrip]
  · intro A hA
    unfold recordsOf
    rw [splitSepNoSep hA]
    by_cases h : pyStrip A = [] <;> simp [h]

/-- Witness for C7 (amended): one separator occurrence cuts two
records; the whitespace-only trailing chunk of a terminated file is
discarded. -/
theorem c7_witness :
    recordsOf ( "LOCUS X//\nrest".data) = [ "LOCUS X".data, "rest".data] ∧
    recordsOf ( "LOCUS X//\n".data) = [ "LOCUS X".data] := by
  constructor
  · have h1 := c7_record_splitting.1 ( "LOCUS X".data) ( "rest".data) (by decide) (by decide)
    have h2 := c7_record_splitting.2.2 ( "rest".data) (by decide)
    exact h1.trans (by rw [h2]; decide)
  · have h1 := c7_record_splitting.1 ( "LOCUS X".data) [] (by decide) (by decide)
    have h2 := c7_record_splitting.2.2 [] (by decide)
    exact h1.trans (by rw [h2]; decide)

/-! ## Claim C4: the Attribute Formatter -/

/-- C4: `format_gff_attributes` emits exactly the tokens described by
the specification (`specAttrTokens`: `ID`/`Name` from `locus_tag`, else
from `gene`, else neither; escaped `product`; `gene` only when the
feature type is not literally `gene`; `protein_id` verbatim;
`translation` truncated to 50 characters plus `...` when longer;
escaped `note`; every other key dropped) joined with `;`, and `.` when
no recognized qualifier produced a token. -/
theorem c4_attribute_formatter (attributes : AttrMap) (feature_type : List Char) :
    format_gff_attributes attributes feature_type =
      (if specAttrTokens attributes feature_type = [] then ".".data
       else joinSemi (specAttrTokens attributes feature_type)) := by
  unfold format_gff_attributes specAttrTokens
  cases dlookup ( "locus_tag".data) attributes <;>
    cases dlookup ( "gene".data) attributes <;>
    cases dlookup ( "product".data) attributes <;>
    cases dlookup ( "protein_id".data) attributes <;>
    cases dlookup ( "translation".data) attributes <;>
    cases dlookup ( "note".data) attributes <;>
    by_cases hft : feature_type = "gene".data <;>
    simp [hft]

/-! ## Counterexamples -/

/-- C2 counterexample: wrapping the expression `complement(5)` in
`complement(...)` changes `(start, end)` from `(5, 5)` to `(1, 1)`
because `parse_location` removes only one wrapper. -/
theorem c2_counterexample :
    parse_location ( "complement(complement(5))".data) = (1, 1, "-".data) ∧
    parse_location ( "complement(5)".data) = (5, 5, "-".data) :=
  ⟨by decide, by decide⟩

/-- C2 (amended): for every range expression `<a>..<b>` of decimal
digits with optional `<`/`>` fuzzy markers on either side the resolver
returns `(a, b, "+")`; wrapping any expression that does not itself
start with `complement(` in `complement(...)` sets the strand to `-`
without changing `(start, end)` (a doubly wrapped expression is
unwrapped only once, see the counterexample); an expression starting
with `join(` yields the first `<digits>..<digits>` pair found in the
remainder; and a bare single position with optional fuzzy markers
yields `(n, n, "+")`. -/
theorem c2_resolver_algorithm :
    (∀ m1 ds1 m2 ds2 : List Char,
      (m1 = [] ∨ m1 = ['<'] ∨ m1 = ['>']) → (m2 = [] ∨ m2 = ['<'] ∨ m2 = ['>']) →
      ds1 ≠ [] → ds2 ≠ [] → ds1.all isDigitChar = true → ds2.all isDigitChar = true →
      parse_location ((m1 ++ ds1) ++ '.' :: '.' :: (m2 ++ ds2)) =
        ((digitsVal ds1 : Int), (digitsVal ds2 : Int), "+".data)) ∧
    (∀ s : List Char, ( "complement(".data).isPrefixOf s = false →
      parse_location ( "complement(".data ++ (s ++ [')'])) =
        ((parse_location s).1, (parse_location s).2.1, "-".data)) ∧
    (∀ (s : List Char) (a b : Nat), searchRange s = some (a, b) →
      parse_location ( "join(".data ++ s) = ((a : Int), (b : Int), "+".data)) ∧
    (∀ m ds : List Char, (m = [] ∨ m = ['<'] ∨ m = ['>']) → ds ≠ [] →
      ds.all isDigitChar = true →
      parse_location (m ++ ds) = ((digitsVal ds : Int), (digitsVal ds : Int), "+".data)) := by
  refine ⟨?_, ?_, ?_, ?_⟩
  · intro m1 ds1 m2 ds2 hm1 hm2 hne1 hne2 hall1 hall2
    obtain ⟨h0, hh0, hc0, hj0⟩ := headFuzzyDigits hm1 hne1 hall1 ('.' :: '.' :: (m2 ++ ds2))
    have hcomp := notComplementOfHead hh0 hc0
    have hjoin := notJoinOfHead hh0 hj0
    unfold parse_location
    rw [if_neg (by rw [hcomp]; simp)]
    have hcore : resolveCore ((m1 ++ ds1) ++ '.' :: '.' :: (m2 ++ ds2)) =
        ((digitsVal ds1 : Int), (digitsVal ds2 : Int)) := by
      unfold resolveCore
      rw [if_neg (by rw [hjoin]; simp), if_pos (containsDotsAppendSep _ _),
        rangeParseFuzzy hm1 hm2 hne1 hne2 hall1 hall2]
    rw [hcore]
  · intro s hs
    have hps : parse_location s = ((resolveCore s).1, (resolveCore s).2, "+".data) := by
      unfold parse_location
      rw [if_neg (by rw [hs]; simp)]
    rw [hps]
    unfold parse_location
    rw [if_pos (isPrefixOfAppendSelf ( "complement(".data) (s ++ [')']))]
    have hdrop : ( "complement(".data ++ (s ++ [')'])).drop 11 = s ++ [')'] := by
      have h11 : ( "complement(".data).length = 11 := rfl
      rw [← h11, List.drop_left]
    rw [hdrop]
    have hlast : (s ++ [')']).dropLast = s := by simp
    rw [hlast]
  · intro s a b hsr
    have hhead : ( "join(".data ++ s).head? = some 'j' := rfl
    unfold parse_location
    rw [if_neg (by rw [notComplementOfHead hhead (by decide)]; simp)]
    have hcore : resolveCore ( "join(".data ++ s) = ((a : Int), (b : Int)) := by
      unfold resolveCore
      rw [if_pos (isPrefixOfAppendSelf ( "join(".data) s), searchRangeJoin, hsr]
    rw [hcore]
  · intro m ds hm hne hall
    obtain ⟨h0, hh0, hc0, hj0⟩ := headFuzzyDigits hm hne hall []
    rw [List.append_nil] at hh0
    have hcomp := notComplementOfHead hh0 hc0
    have hjoin := notJoinOfHead hh0 hj0
    unfold parse_location
    rw [if_neg (by rw [hcomp]; simp)]
    have hcore : resolveCore (m ++ ds) = ((digitsVal ds : Int), (digitsVal ds : Int)) := by
      unfold resolveCore
      rw [if_neg (by rw [hjoin]; simp)]
      have hdots : containsDots (m ++ ds) = false :=
        containsDotsNone (noDotFuzzyDigits hm hall)
      rw [if_neg (by rw [hdots]; simp), stripAnglesFuzzyDigits hm hall, pyIntDigits hne hall]
    rw [hcore]

/-- Witness for C2 (amended), instantiating all four parts at concrete
locations. -/
theorem c2_witness :
    parse_location ( "<100..>200".data) = (100, 200, "+".data) ∧
    parse_location ( "complement(3..9)".data) = (3, 9, "-".data) ∧
    parse_location ( "join(12..34,56..78)".data) = (12, 34, "+".data) ∧
    parse_location ( "<77".data) = (77, 77, "+".data) := by
  refine ⟨?_, ?_, ?_, ?_⟩
  · exact (c2_resolver_algorithm.1 ['<'] ( "100".data) ['>'] ( "200".data)
      (Or.inr (Or.inl rfl)) (Or.inr (Or.inr rfl)) (by decide) (by decide)
      (by decide) (by decide)).trans (by decide)
  · exact (c2_resolver_algorithm.2.1 ( "3..9".data) (by decide)).trans (by decide)
  · exact (c2_resolver_algorithm.2.2.1 ( "12..34,56..78)".data) 12 34 (by decide)).trans
      (by decide)
  · exact (c2_resolver_algorithm.2.2.2 ['<'] ( "77".data) (Or.inr (Or.inl rfl))
      (by decide) (by decide)).trans (by decide)

/-- C3 counterexample: the line `     )abc def` has a blank first 5
characters and a non-space at index 5, yet the scanner does not treat it
as a feature header (the header regex `     (\w+)\s+(.+)` fails on `)`),
so no feature is produced. -/
theorem c3_counterexample :
    (( "     )abc def".data).take 5).all (fun c => c = ' ') = true ∧
    ( "     )abc def".data).getD 5 ' ' ≠ ' ' ∧
    scanFeatures false [ "FEATURES".data, "     )abc def".data] = [] :=
  ⟨by decide, by decide, by decide⟩

/-- C7 counterexample: the text `abc//\ndef` has no line consisting
solely of `//` (its lines are `abc//` and `def`), yet the splitter cuts
it into two records because `//` is immediately followed by a newline. -/
theorem c7_counterexample :
    pySplitNl ( "abc//\ndef".data) = [ "abc//".data, "def".data] ∧
    recordsOf ( "abc//\ndef".data) = [ "abc".data, "def".data] ∧
    recordsOf ( "abc//\ndef".data) ≠ [ "abc//\ndef".data] :=
  ⟨by decide, by decide, by decide⟩

/-! ## Claim C3: the Feature-Table Scanner -/

theorem scanFeaturesAuxCongr : ∀ (f1 f2 : Nat) (inF : Bool) (ls : List (List Char)),
    ls.length ≤ f1 → ls.length ≤ f2 →
    scanFeaturesAux f1 inF ls = scanFeaturesAux f2 inF ls := by
  intro f1
  induction f1 with
  | zero =>
    intro f2 inF ls h1 _
    have hls : ls = [] := List.length_eq_zero.1 (Nat.le_zero.1 h1)
    subst hls
    cases f2 <;> rfl
  | succ a ih =>
    intro f2 inF ls h1 h2
    cases ls with
    | nil => cases f2 <;> rfl
    | cons line rest =>
      cases f2 with
      | zero => simp at h2
      | succ b =>
        simp only [List.length_cons, Nat.add_le_add_iff_right] at h1 h2
        simp only [scanFeaturesAux]
        by_cases hF : ( "FEATURES".data).isPrefixOf line = true
        · rw [if_pos hF, if_pos hF]
          exact ih b true rest h1 h2
        · rw [if_neg hF, if_neg hF]
          by_cases hO : (( "ORIGIN".data).isPrefixOf line || ( "//".data).isPrefixOf line) = true
          · rw [if_pos hO, if_pos hO]
          · rw [if_neg hO, if_neg hO]
            by_cases hG : inF = true ∧ 5 < line.length ∧ line.getD 5 ' ' ≠ ' '
            · rw [if_pos hG, if_pos hG]
              cases hm : headerMatch line with
              | some tl =>
                show (⟨tl.1, tl.2, rest.takeWhile isQualLine⟩ : Feature) ::
                    scanFeaturesAux a inF (rest.dropWhile isQualLine) =
                  (⟨tl.1, tl.2, rest.takeWhile isQualLine⟩ : Feature) ::
                    scanFeaturesAux b inF (rest.dropWhile isQualLine)
                rw [ih b inF (rest.dropWhile isQualLine)
                  (Nat.le_trans (dropWhileLenLe _ _) h1)
                  (Nat.le_trans (dropWhileLenLe _ _) h2)]
              | none =>
                show scanFeaturesAux a inF rest = scanFeaturesAux b inF rest
                exact ih b inF rest h1 h2
            · rw [if_neg hG, if_neg hG]
              exact ih b inF rest h1 h2

theorem headerMatchFacts {line : List Char} {tl : List Char × List Char}
    (hm : headerMatch line = some tl) :
    ( "     ".data).isPrefixOf line = true ∧ (line.drop 5).takeWhile isWordChar ≠ [] := by
  simp only [headerMatch] at hm
  by_cases h5 : ( "     ".data).isPrefixOf line = true
  · refine ⟨h5, ?_⟩
    rw [if_pos h5] at hm
    by_cases hw : (line.drop 5).takeWhile isWordChar = []
    · rw [if_pos hw] at hm
      cases hm
    · exact hw
  · rw [if_neg h5] at hm
    cases hm

theorem takeWhileNeNilHead {p : Char → Bool} {l : List Char}
    (h : l.takeWhile p ≠ []) : ∃ c l', l = c :: l' ∧ p c = true := by
  cases l with
  | nil => simp [List.takeWhile] at h
  | cons c l' =>
    refine ⟨c, l', rfl, ?_⟩
    by_cases hc : p c = true
    · exact hc
    · rw [List.takeWhile_cons, if_neg hc] at h
      exact absurd rfl h

/-- A line matched by the header regex has first 5 characters equal to
spaces, length greater than 5, and a word character at index 5. -/
theorem headerLineShape {line : List Char} {tl : List Char × List Char}
    (hm : headerMatch line = some tl) :
    line.head? = some ' ' ∧ 5 < line.length ∧ line.getD 5 ' ' ≠ ' ' := by
  obtain ⟨h5, hw⟩ := headerMatchFacts hm
  obtain ⟨t, ht⟩ := appendOfIsPrefixOf h5
  have hdrop : line.drop 5 = t := by
    rw [ht, show (5 : Nat) = ( "     ".data).length from rfl, List.drop_left]
  rw [hdrop] at hw
  obtain ⟨w0, t', rfl, hw0⟩ := takeWhileNeNilHead hw
  subst ht
  refine ⟨rfl, ?_, ?_⟩
  · simp [List.length_append]
  · have hg : (( "     ".data ++ w0 :: t').getD 5 ' ') = w0 := by
      simp only [List.getD_eq_getElem?_getD]
      rw [List.getElem?_append_right (by decide)]
      simp
    rw [hg]
    exact charClassNe hw0 (by decide)

theorem scanFeaturesHeader {line : List Char} {tl : List Char × List Char}
    (rest : List (List Char)) (hm : headerMatch line = some tl) :
    scanFeatures true (line :: rest) =
      ⟨tl.1, tl.2, rest.takeWhile isQualLine⟩ ::
        scanFeatures true (rest.dropWhile isQualLine) := by
  obtain ⟨hhead, hlen, hg⟩ := headerLineShape hm
  have hF : ( "FEATURES".data).isPrefixOf line = false := by
    rw [show "FEATURES".data = 'F' :: "EATURES".data from rfl]
    exact notPrefixOfHeadNe hhead (by decide)
  have hO : ( "ORIGIN".data).isPrefixOf line = false := by
    rw [show "ORIGIN".data = 'O' :: "RIGIN".data from rfl]
    exact notPrefixOfHeadNe hhead (by decide)
  have hS : ( "//".data).isPrefixOf line = false := by
    rw [show "//".data = '/' :: "/".data from rfl]
    exact notPrefixOfHeadNe hhead (by decide)
  show scanFeaturesAux (rest.length + 1) true (line :: rest) = _
  simp only [scanFeaturesAux]
  rw [if_neg (by rw [hF]; simp), if_neg (by rw [hO, hS]; simp),
    if_pos (by exact ⟨by trivial, hlen, hg⟩), hm]
  show (⟨tl.1, tl.2, rest.takeWhile isQualLine⟩ : Feature) ::
      scanFeaturesAux rest.length true (rest.dropWhile isQualLine) = _
  rw [scanFeaturesAuxCongr rest.length (rest.dropWhile isQualLine).length true
    (rest.dropWhile isQualLine) (dropWhileLenLe _ _) (Nat.le_refl _)]
  rfl

theorem scanFeaturesSkip {inF : Bool} {line : List Char} (rest : List (List Char))
    (hF : ( "FEATURES".data).isPrefixOf line = false)
    (hO : ( "ORIGIN".data).isPrefixOf line = false)
    (hS : ( "//".data).isPrefixOf line = false)
    (hm : headerMatch line = none) :
    scanFeatures inF (line :: rest) = scanFeatures inF rest := by
  show scanFeaturesAux (rest.length + 1) inF (line :: rest) = _
  simp only [scanFeaturesAux]
  rw [if_neg (by rw [hF]; simp), if_neg (by rw [hO, hS]; simp)]
  by_cases hG : inF = true ∧ 5 < line.length ∧ line.getD 5 ' ' ≠ ' '
  · rw [if_pos hG, hm]
    rfl
  · rw [if_neg hG]
    rfl

theorem scanFeaturesStop {inF : Bool} {line : List Char} (rest : List (List Char))
    (h : ( "ORIGIN".data).isPrefixOf line = true ∨ ( "//".data).isPrefixOf line = true) :
    scanFeatures inF (line :: rest) = [] := by
  have hhead : ∃ b, line.head? = some b ∧ b ≠ 'F' := by
    rcases h with h | h
    · refine ⟨'O', ?_, by decide⟩
      rw [show "ORIGIN".data = 'O' :: "RIGIN".data from rfl] at h
      exact headOfIsPrefixOf h
    · refine ⟨'/', ?_, by decide⟩
      rw [show "//".data = '/' :: "/".data from rfl] at h
      exact headOfIsPrefixOf h
  obtain ⟨b, hb, hbne⟩ := hhead
  have hF : ( "FEATURES".data).isPrefixOf line = false := by
    rw [show "FEATURES".data = 'F' :: "EATURES".data from rfl]
    exact notPrefixOfHeadNe hb hbne
  show scanFeaturesAux (rest.length + 1) inF (line :: rest) = _
  simp only [scanFeaturesAux]
  rw [if_neg (by rw [hF]; simp), if_pos (by rcases h with h | h <;> simp [h])]

/-- C3 (amended): while `in_features` is set, a feature entry is begun
exactly on lines matched by the header regex `     (\w+)\s+(.+)` (five
spaces, a word-character type, whitespace, a nonempty location): on a
match, exactly the immediately following qualifier lines (21 leading
spaces, or at least 21 characters with the first 21 all blank) are
greedily consumed, stopping without consuming at the first non-matching
line; a line whose first 5 characters are blank with a non-space at
index 5 but which fails the regex begins no feature; scanning stops at
the first line starting with `ORIGIN` or `//` and no feature after it
is emitted. -/
theorem c3_feature_table_scanner :
    (∀ (line : List Char) (tl : List Char × List Char) (rest : List (List Char)),
      headerMatch line = some tl →
      scanFeatures true (line :: rest) =
        ⟨tl.1, tl.2, rest.takeWhile isQualLine⟩ ::
          scanFeatures true (rest.dropWhile isQualLine)) ∧
    (∀ (inF : Bool) (line : List Char) (rest : List (List Char)),
      ( "FEATURES".data).isPrefixOf line = false →
      ( "ORIGIN".data).isPrefixOf line = false →
      ( "//".data).isPrefixOf line = false →
      headerMatch line = none →
      scanFeatures inF (line :: rest) = scanFeatures inF rest) ∧
    (∀ (inF : Bool) (line : List Char) (rest : List (List Char)),
      ( "ORIGIN".data).isPrefixOf line = true ∨ ( "//".data).isPrefixOf line = true →
      scanFeatures inF (line :: rest) = []) ∧
    (∀ l : List Char,
      isQualLine l = (decide (21 ≤ l.length) && (l.take 21).all isSpaceChar)) := by
  refine ⟨fun line tl rest hm => scanFeaturesHeader rest hm,
    fun inF line rest hF hO hS hm => scanFeaturesSkip rest hF hO hS hm,
    fun inF line rest h => scanFeaturesStop rest h, ?_⟩
  intro l
  unfold isQualLine
  by_cases hp : ( "                     ".data).isPrefixOf l = true
  · rw [hp]
    obtain ⟨t, ht⟩ := appendOfIsPrefixOf hp
    subst ht
    have h1 : decide (21 ≤ (( "                     ".data) ++ t).length) = true := by
      simp [List.length_append]
    have h2 : ((( "                     ".data) ++ t).take 21).all isSpaceChar = true := by
      rw [show (21 : Nat) = ( "                     ".data).length from rfl, List.take_left]
      decide
    rw [h1, h2]
    rfl
  · rw [show ( "                     ".data).isPrefixOf l = false from by
      cases hq : ( "                     ".data).isPrefixOf l
      · rfl
      · exact absurd hq hp]
    rw [Bool.false_or]
    rfl

/-- Witness for C3 (amended): a well-formed header line begins a feature
and greedily consumes the following qualifier line. -/
theorem c3_witness :
    scanFeatures true [ "     gene            100..200".data,
        "                     /locus_tag=\"g1\"".data] =
      [⟨ "gene".data, "100..200".data,
        [ "                     /locus_tag=\"g1\"".data]⟩] := by
  have h := c3_feature_table_scanner.1 ( "     gene            100..200".data)
    ( "gene".data, "100..200".data)
    [ "                     /locus_tag=\"g1\"".data] (by decide)
  exact h.trans (by decide)

/-! ## Claims C8 and C10: the Qualifier Extractor -/

theorem extractAuxValueIrrel : ∀ (rest : List (List Char)) (v v' : List Char) (m : AttrMap),
    extractAux none v m rest = extractAux none v' m rest := by
  intro rest
  induction rest with
  | nil => intro v v' m; rfl
  | cons line rest ih =>
    intro v v' m
    simp only [extractAux]
    by_cases h : (pyStrip line).head? = some '/'
    · rw [if_pos h, if_pos h]
      rfl
    · rw [if_neg h, if_neg h]
      exact ih _ _ m

theorem splitEq1AppendAux : ∀ (k v : List Char), (∀ c ∈ k, c ≠ '=') →
    splitEq1 (k ++ '=' :: v) = (k, v) := by
  intro k
  induction k with
  | nil =>
    intro v _
    simp [splitEq1, List.takeWhile_cons, List.dropWhile_cons]
  | cons c k ih =>
    intro v hk
    have hc : c ≠ '=' := hk c (by simp)
    have hrec := ih v (fun x hx => hk x (by simp [hx]))
    have h1 := congrArg Prod.fst hrec
    have h2 := congrArg Prod.snd hrec
    simp only [splitEq1] at h1 h2 ⊢
    rw [List.cons_append, List.takeWhile_cons, List.dropWhile_cons,
      if_pos (decide_eq_true hc), if_pos (decide_eq_true hc)]
    rw [Prod.mk.injEq]
    exact ⟨by rw [h1], by rw [h2]⟩

/-- C10: continuation lines that precede the first `/` line contribute
to no map entry: dropping any such prefix of the qualifier lines leaves
the extracted map unchanged, and a line list with no `/` line at all
extracts to the empty map (so every entry's key comes from a line whose
stripped form starts with `/`). -/
theorem c10_leading_continuations_discarded :
    (∀ pre rest : List (List Char), (∀ l ∈ pre, (pyStrip l).head? ≠ some '/') →
      extract_attributes (pre ++ rest) = extract_attributes rest) ∧
    (∀ lines : List (List Char), (∀ l ∈ lines, (pyStrip l).head? ≠ some '/') →
      extract_attributes lines = []) := by
  have main : ∀ pre rest : List (List Char), (∀ l ∈ pre, (pyStrip l).head? ≠ some '/') →
      extract_attributes (pre ++ rest) = extract_attributes rest := by
    intro pre
    induction pre with
    | nil => intro rest _; rfl
    | cons l pre ih =>
      intro rest h
      have hl : (pyStrip l).head? ≠ some '/' := h l (by simp)
      show extractAux none [] [] ((l :: pre) ++ rest) = _
      rw [List.cons_append]
      simp only [extractAux]
      rw [if_neg hl, extractAuxValueIrrel _ _ []]
      exact ih rest (fun x hx => h x (by simp [hx]))
  refine ⟨main, fun lines h => ?_⟩
  have hm := main lines [] h
  rw [List.append_nil] at hm
  rw [hm]
  rfl

/-- Witness for C10: the continuation line `hello` before the first `/`
line is discarded. -/
theorem c10_witness :
    extract_attributes [ "hello".data, "/gene=abc".data] =
      extract_attributes [ "/gene=abc".data] :=
  c10_leading_continuations_discarded.1 [ "hello".data] [ "/gene=abc".data] (by decide)

theorem containsCharOfMem {c : Char} {l : List Char} (h : c ∈ l) : containsChar c l = true := by
  simp only [containsChar, List.any_eq_true]
  exact ⟨c, h, by simp⟩

/-- The stripped form of a qualifier line `/<k>=<v>` whose final
character is not whitespace is itself. -/
theorem pyStripQualLine {k v : List Char}
    (hlast : isSpaceChar (('/' :: (k ++ '=' :: v)).getLastD '/') = false) :
    pyStrip ('/' :: (k ++ '=' :: v)) = '/' :: (k ++ '=' :: v) := by
  apply pyStripEqSelf
  · intro c hc
    rw [List.head?_cons] at hc
    cases hc
    decide
  · intro c hc
    rw [List.head?_reverse] at hc
    rw [List.getLastD_eq_getLast?, hc] at hlast
    exact hlast

/-- C8 (amended): when a pending key/value pair is flushed (on the next
`/` line or at end of input) the stored value is the accumulated value
with ALL leading and trailing `"` characters removed (`stripQuotes`);
a continuation line appends one space plus its stripped text to the
current value before the flush; a feature with zero qualifier lines
yields the empty map. -/
theorem c8_extractor_flush :
    (∀ k v : List Char, k ≠ [] → (∀ c ∈ k, c ≠ '=') →
      isSpaceChar (('/' :: (k ++ '=' :: v)).getLastD '/') = false →
      extract_attributes ['/' :: (k ++ '=' :: v)] = [(k, stripQuotes v)]) ∧
    (∀ k v cont : List Char, k ≠ [] → (∀ c ∈ k, c ≠ '=') →
      isSpaceChar (('/' :: (k ++ '=' :: v)).getLastD '/') = false →
      (pyStrip cont).head? ≠ some '/' →
      extract_attributes ['/' :: (k ++ '=' :: v), cont] =
        [(k, stripQuotes (v ++ ' ' :: pyStrip cont))]) ∧
    extract_attributes [] = [] := by
  have step1 : ∀ k v : List Char, k ≠ [] → (∀ c ∈ k, c ≠ '=') →
      isSpaceChar (('/' :: (k ++ '=' :: v)).getLastD '/') = false →
      ∀ rest, extract_attributes (('/' :: (k ++ '=' :: v)) :: rest) =
        extractAux (some k) v [] rest := by
    intro k v hk hkeq hlast rest
    show extractAux none [] [] (('/' :: (k ++ '=' :: v)) :: rest) = _
    simp only [extractAux]
    rw [pyStripQualLine hlast]
    rw [if_pos (by rw [List.head?_cons])]
    rw [if_pos (containsCharOfMem (by simp))]
    rw [List.tail_cons, splitEq1AppendAux k v hkeq]
    rfl
  refine ⟨?_, ?_, rfl⟩
  · intro k v hk hkeq hlast
    rw [step1 k v hk hkeq hlast []]
    show (if k = [] then ([] : AttrMap) else dinsert k (stripQuotes v) []) = _
    rw [if_neg hk]
    rfl
  · intro k v cont hk hkeq hlast hcont
    rw [step1 k v hk hkeq hlast [cont]]
    simp only [extractAux]
    rw [if_neg hcont]
    show (if k = [] then ([] : AttrMap)
          else dinsert k (stripQuotes (v ++ ' ' :: pyStrip cont)) []) = _
    rw [if_neg hk]
    rfl

/-- Witness for C8 (amended): `/note=""hi""` stores `hi` (all outer
quotes stripped), and a continuation line joins with a single space. -/
theorem c8_witness :
    extract_attributes [ "/note=\"\"hi\"\"".data] = [( "note".data, "hi".data)] ∧
    extract_attributes [ "/product=\"big".data, "protein\"".data] =
      [( "product".data, "big protein".data)] := by
  constructor
  · exact (c8_extractor_flush.1 ( "note".data) ( "\"\"hi\"\"".data)
      (by decide) (by decide) (by decide)).trans (by decide)
  · exact (c8_extractor_flush.2.1 ( "product".data) ( "\"big".data) ( "protein\"".data)
      (by decide) (by decide) (by decide) (by decide)).trans (by decide)

/-- C8 counterexample: flushing the value `""a""` stores `a` — all
leading and trailing quote characters are stripped (Python
`strip('"')`), not just one from each side (which would give `"a"`). -/
theorem c8_counterexample :
    extract_attributes [ "/note=\"\"a\"\"".data] = [( "note".data, "a".data)] ∧
    extract_attributes [ "/note=\"\"a\"\"".data] ≠ [( "note".data, "\"a\"".data)] :=
  ⟨by decide, by decide⟩

/-! ## Claim C5: the converter's output structure -/

/-- C5: the output starts with the `##gff-version 3` line; for a record
whose (last, assumed unique) `LOCUS` line has at least 3 tokens and a
purely numeric third token, exactly one `##sequence-region <seqid> 1
<length>` line is written before that record's feature lines, which are
the scanned features in scan order; and every feature line is 9
tab-joined columns with source `GenBank`, score `.`, and phase `0`
exactly when the feature type is `CDS` (else `.`). -/
theorem c5_converter_output :
    (∀ content : List Char,
      (convert content).1.head? = some ( "##gff-version 3".data)) ∧
    (∀ (record : List Char) (pre post : List (List Char)) (L : List Char),
      pySplitNl record = pre ++ L :: post →
      (∀ l ∈ pre, ( "ACCESSION".data).isPrefixOf l = true → 2 ≤ (pySplitWs l).length) →
      ( "LOCUS".data).isPrefixOf L = true → 3 ≤ (pySplitWs L).length →
      (∀ l ∈ post, ¬(( "LOCUS".data).isPrefixOf l = true ∧ 3 ≤ (pySplitWs l).length)) →
      ((pySplitWs L).getD 2 []).all isDigitChar = true →
      recordOut record = some
        (( "##sequence-region ".data ++ (pySplitWs L).getD 1 [] ++ " 1 ".data ++
            (pySplitWs L).getD 2 []) ::
          (scanFeatures false (pre ++ L :: post)).map
            (featureLine ((pySplitWs L).getD 1 [])))) ∧
    (∀ (seqid : List Char) (f : Feature), ∃ cols : List (List Char),
      featureLine seqid f = tabJoin cols ∧ cols.length = 9 ∧
      cols.getD 0 [] = seqid ∧ cols.getD 1 [] = "GenBank".data ∧
      cols.getD 2 [] = f.ftype ∧ cols.getD 5 [] = ".".data ∧
      cols.getD 6 [] = (parse_location f.location).2.2 ∧
      cols.getD 7 [] = (if f.ftype = "CDS".data then "0".data else ".".data) ∧
      cols.getD 8 [] = format_gff_attributes (extract_attributes f.qualifier_lines) f.ftype) := by
  refine ⟨fun content => rfl, ?_, ?_⟩
  · intro record pre post L hsplit hacc hL h3 hpost hdig
    unfold recordOut
    rw [hsplit]
    obtain ⟨sid', slen', hthrough⟩ := scanIdsThrough pre none none (L :: post) hacc
    rw [hthrough]
    simp only [scanIds]
    rw [if_pos hL, if_pos h3]
    have tok1ne : (pySplitWs L).getD 1 [] ≠ [] := pySplitWsGetDNeNil (by omega)
    have tok2ne : (pySplitWs L).getD 2 [] ≠ [] := pySplitWsGetDNeNil (by omega)
    rw [scanIdsSticky post _ _ tok1ne hpost]
    show some (regionLines (some ((pySplitWs L).getD 2 []))
        (seqidOf (some ((pySplitWs L).getD 1 []))) ++
      (scanFeatures false (pre ++ L :: post)).map
        (featureLine (seqidOf (some ((pySplitWs L).getD 1 []))))) = _
    rw [show seqidOf (some ((pySplitWs L).getD 1 [])) = (pySplitWs L).getD 1 [] from by
      simp [seqidOf, pyFalsy, tok1ne]
      rw [List.getD_eq_getElem?_getD] at tok1ne
      exact fun hc => absurd hc tok1ne]
    rw [show regionLines (some ((pySplitWs L).getD 2 [])) ((pySplitWs L).getD 1 []) =
        [ "##sequence-region ".data ++ (pySplitWs L).getD 1 [] ++ " 1 ".data ++
          (pySplitWs L).getD 2 []] from by
      simp only [regionLines]
      rw [if_pos ⟨tok2ne, hdig⟩]]
    rfl
  · intro seqid f
    refine ⟨[seqid, "GenBank".data, f.ftype,
      intStr (parse_location f.location).1,
      intStr (parse_location f.location).2.1,
      ".".data,
      (parse_location f.location).2.2,
      (if f.ftype = "CDS".data then "0".data else ".".data),
      format_gff_attributes (extract_attributes f.qualifier_lines) f.ftype],
      rfl, rfl, rfl, rfl, rfl, rfl, rfl, rfl, rfl⟩

/-- Witness for C5 at the specification's end-to-end example record. -/
theorem c5_witness :
    recordOut ( "LOCUS AB123 500 bp\nFEATURES\n     gene            100..200\n                     /locus_tag=\"g1\"\n".data) =
      some [ "##sequence-region AB123 1 500".data,
        "AB123\tGenBank\tgene\t100\t200\t.\t+\t.\tID=g1;Name=g1".data] := by
  have h := c5_converter_output.2.1
    ( "LOCUS AB123 500 bp\nFEATURES\n     gene            100..200\n                     /locus_tag=\"g1\"\n".data)
    [] [ "FEATURES".data, "     gene            100..200".data,
      "                     /locus_tag=\"g1\"".data, []]
    ( "LOCUS AB123 500 bp".data)
    (by decide) (by decide) (by decide) (by decide) (by decide) (by decide)
  exact h.trans (by decide)

end GbffToGff
